import Mathlib

/-
Verification development for the plnx-grabber trade-history backfill engine
(plnxgrabber/__init__.py). The Python source is shallowly embedded:

* a pandas row of the trade-history frame (index (_id, ts), columns
  globalid, amount, rate, total, type) becomes the structure Trade; the
  three float columns are modelled as Option Int, where none stands for a
  NaN cell (the only property of a float cell the engine relies on is
  equality for drop_duplicates and NaN-ness for dropna);
* a dataframe becomes a List Trade in received order;
* the MongoDB collection of one pair becomes a List Trade of documents
  (from_doc / to_doc sort by _id, so stored order is irrelevant);
* Grabber.grab's while-loop becomes a fueled step function grabStepDf on
  an explicit GrabState; the Poloniex fetch (get_chunk) is an oracle
  parameter of type Int -> Int -> List Trade;
* raised exceptions become Err values carried in the outcome;
* the state additionally carries two ghost traces, inserted (the chunks
  given to insert_docs, in commit order) and fetched (the windows queried
  upstream), used only to state properties.
-/

namespace Plnx

/-- One row of the normalized trade-history frame produced by get_chunk
(after astype and set_index): index levels _id and ts, value columns
globalid, amount, rate, total, type. amount/rate/total are float columns,
modelled as Option Int with none for NaN. -/
structure Trade where
  id : Int
  ts : Int
  globalid : Int
  amount : Option Int
  rate : Option Int
  total : Option Int
  typ : Bool
deriving DecidableEq, Repr, Inhabited

/-- A row has a NaN in some value column (what df.dropna looks at). -/
def Trade.hasNull (r : Trade) : Bool :=
  r.amount.isNone || r.rate.isNone || r.total.isNone

/-- The tuple of value columns of a row. pandas df.drop_duplicates compares
exactly these (the index levels _id and ts are not columns after
set_index(..., drop=True)). -/
def Trade.cols (r : Trade) : Int × Option Int × Option Int × Option Int × Bool :=
  (r.globalid, r.amount, r.rate, r.total, r.typ)

/-- df.dropna(): drop the rows that have a NaN in some column. -/
def dropna (l : List Trade) : List Trade :=
  l.filter (fun r => r.hasNull = false)

/-- Helper for drop_duplicates: keep the first row for each value-column
tuple, remembering the tuples already seen. -/
def dropDupAux (seen : List (Int × Option Int × Option Int × Option Int × Bool)) :
    List Trade → List Trade
  | [] => []
  | r :: rs =>
      if r.cols ∈ seen then dropDupAux seen rs
      else r :: dropDupAux (r.cols :: seen) rs

/-- df.drop_duplicates(): drop rows whose value columns duplicate an earlier
row's (keep='first'; the (_id, ts) index is not compared). -/
def drop_duplicates (l : List Trade) : List Trade :=
  dropDupAux [] l

/- TimePeriod enum (seconds). -/
namespace TimePeriod

def SECOND : Int := 1
def MINUTE : Int := 60 * SECOND
def HOUR : Int := 60 * MINUTE
def DAY : Int := 24 * HOUR
def WEEK : Int := 7 * DAY
def MONTH : Int := 30 * DAY
def YEAR : Int := 12 * MONTH

end TimePeriod

/-- The window cap used by grab: max_window_size = TimePeriod.MONTH.value. -/
def max_window_size : Int := TimePeriod.MONTH

/-- The result of df_history_info / col_history_info (delta and memory are
log-only and omitted). -/
structure HistInfo where
  from_ts : Int
  from_id : Int
  to_ts : Int
  to_id : Int
  count : Nat
deriving DecidableEq, Repr

/-- df_history_info: orientation is resolved by comparing the _id of the
first and the last row only (from_i = -1 * (first > last),
to_i = -1 * (first < last); Python's True coerces to 1, and l[-1] is the
last element, l[0] the first). -/
def df_history_info (l : List Trade) : HistInfo :=
  let fst := l.headD default
  let lst := l.getLastD default
  let fr := if fst.id > lst.id then lst else fst
  let t := if fst.id < lst.id then lst else fst
  { from_ts := fr.ts, from_id := fr.id, to_ts := t.ts, to_id := t.id, count := l.length }

/-- verify_history_df: diff = count - (to_id - from_id + 1); verified iff
diff == 0. -/
def verify_history_df (l : List Trade) : Bool :=
  let hi := df_history_info l
  decide ((hi.count : Int) = hi.to_id - hi.from_id + 1)

/-- from_doc: the stored document with the smallest _id (find().sort(_id
ascending).limit(1)); on our list model, the earliest minimal-id element. -/
def from_doc (docs : List Trade) : Trade :=
  docs.foldl (fun b r => if r.id < b.id then r else b) (docs.headD default)

/-- to_doc: the stored document with the largest _id. -/
def to_doc (docs : List Trade) : Trade :=
  docs.foldl (fun b r => if r.id > b.id then r else b) (docs.headD default)

/-- col_history_info for a collection of documents. -/
def col_history_info (docs : List Trade) : HistInfo :=
  { from_ts := (from_doc docs).ts, from_id := (from_doc docs).id,
    to_ts := (to_doc docs).ts, to_id := (to_doc docs).id, count := docs.length }

/-- verify_history_col: same density formula over the whole collection. -/
def verify_history_col (docs : List Trade) : Bool :=
  decide ((docs.length : Int) = (to_doc docs).id - (from_doc docs).id + 1)

/-- The exceptions grab / one / row / ring can raise. -/
inductive Err where
  | badRange
  | badRangeIds
  | consistencyBroken
  | emptyCollection
  | emptyPairs
deriving DecidableEq, Repr

/-- The log message distinguishing why the grab loop stopped. -/
inductive BreakReason where
  | nothingReturned
  | startIdReached
  | startTsReached
  | missingAnchor
  | verifyFailed
deriving DecidableEq, Repr

/-- The parameters of one grab call that the loop body consults (to_ts is
only used to build the initial window). -/
structure GrabParams where
  from_ts : Int
  from_id : Option Int
  to_id : Option Int
deriving DecidableEq, Repr

/-- Loop state of grab: the rolling window, the anchor id, the two flags,
the pair's collection, and the ghost traces. -/
structure GrabState where
  wFrom : Int
  wTo : Int
  anchor : Option Int
  recording : Bool
  anythingRecorded : Bool
  col : List Trade
  inserted : List (List Trade)
  fetched : List (Int × Int)
deriving DecidableEq, Repr

/-- Result of one body of the while-loop: continue with a new state, or
break with a reason. -/
inductive StepRes where
  | next (s : GrabState)
  | brk (s : GrabState) (r : BreakReason)
deriving DecidableEq, Repr

/-- Intermediate flow between the blocks of the loop body: break, continue,
or fall through to the next block carrying the (possibly filtered) chunk. -/
inductive Flow where
  | brk (s : GrabState) (r : BreakReason)
  | cont (s : GrabState)
  | fall (s : GrabState) (df : List Trade)
deriving DecidableEq, Repr

/-- The else-part of the seek phase: end id not found in the chunk. Mirrors
the two nested early-termination checks (start id, then start date) and the
window advance to the chunk's oldest timestamp. -/
def seekElse (p : GrabParams) (s : GrabState) (df : List Trade) : Flow :=
  if (match p.from_id with
      | some f => df.any (fun r => decide (r.id ≤ f))
      | none => false) then
    .brk s .startIdReached
  else if df.any (fun r => decide (r.ts ≤ p.from_ts)) then
    .brk s .startTsReached
  else
    let hi := df_history_info df
    .cont { s with wFrom := max (hi.from_ts - max_window_size) p.from_ts, wTo := hi.from_ts }

/-- Seek phase (only active while not recording): if to_id occurs in the
chunk, start recording and keep only rows with id < to_id; a None to_id is
never an element of the index. -/
def seekBlock (p : GrabParams) (s : GrabState) (df : List Trade) : Flow :=
  if s.recording then .fall s df
  else
    match p.to_id with
    | some i =>
        if df.any (fun r => decide (r.id = i)) then
          let df1 := df.filter (fun r => decide (r.id < i))
          if df1.isEmpty then .brk { s with recording := true } .nothingReturned
          else .fall { s with recording := true } df1
        else seekElse p s df
    | none => seekElse p s df

/-- Anchor synchronization: if some row reaches the anchor, keep the strictly
older rows; otherwise the anchor is missing and the loop aborts. -/
def anchorBlock (s : GrabState) (df : List Trade) : Flow :=
  match s.anchor with
  | none => .fall s df
  | some a =>
      if df.any (fun r => decide (a ≤ r.id)) then
        let df1 := df.filter (fun r => decide (r.id < a))
        if df1.isEmpty then .brk s .nothingReturned
        else .fall s df1
      else .brk s .missingAnchor

/-- Lower-bound termination. Note the Python elif: the timestamp check runs
only when from_id is None. On either branch the chunk is filtered, inserted
when non-empty and verified, and the loop breaks. -/
def lowerBlock (p : GrabParams) (s : GrabState) (df : List Trade) : Flow :=
  match p.from_id with
  | some f =>
      if df.any (fun r => decide (r.id ≤ f)) then
        let df1 := df.filter (fun r => decide (f < r.id))
        if df1.isEmpty then .brk s .startIdReached
        else if verify_history_df df1 then
          .brk { s with col := s.col ++ df1, inserted := s.inserted ++ [df1],
                        anythingRecorded := true } .startIdReached
        else .brk s .startIdReached
      else .fall s df
  | none =>
      if df.any (fun r => decide (r.ts ≤ p.from_ts)) then
        let df1 := df.filter (fun r => decide (p.from_ts ≤ r.ts))
        if df1.isEmpty then .brk s .startTsReached
        else if verify_history_df df1 then
          .brk { s with col := s.col ++ df1, inserted := s.inserted ++ [df1],
                        anythingRecorded := true } .startTsReached
        else .brk s .startTsReached
      else .fall s df

/-- Normal commit: dropna, then drop_duplicates (breaking if empty at either
stage), verify (breaking without insert on failure), insert, and advance the
window using the cleaned chunk's history info. -/
def commitBlock (p : GrabParams) (s : GrabState) (df : List Trade) : StepRes :=
  let d1 := dropna df
  if d1.isEmpty then .brk s .nothingReturned
  else
    let d2 := drop_duplicates d1
    if d2.isEmpty then .brk s .nothingReturned
    else if verify_history_df d2 then
      let hi := df_history_info d2
      .next { s with col := s.col ++ d2, inserted := s.inserted ++ [d2],
                     anythingRecorded := true,
                     wFrom := max (hi.from_ts - max_window_size) p.from_ts,
                     wTo := hi.from_ts, anchor := some hi.from_id }
    else .brk s .verifyFailed

/-- One body of grab's while-loop, applied to the chunk df returned by
get_chunk for the current window. -/
def grabStepDf (p : GrabParams) (s : GrabState) (df : List Trade) : StepRes :=
  if df.isEmpty then
    if s.anythingRecorded = true ∨ s.wFrom = p.from_ts then .brk s .nothingReturned
    else .next { s with wTo := s.wFrom, wFrom := max (s.wFrom - max_window_size) p.from_ts }
  else
    match seekBlock p s df with
    | .brk s1 r => .brk s1 r
    | .cont s1 => .next s1
    | .fall s1 df1 =>
        if s1.recording then
          match anchorBlock s1 df1 with
          | .brk s2 r => .brk s2 r
          | .cont s2 => .next s2
          | .fall s2 df2 =>
              match lowerBlock p s2 df2 with
              | .brk s3 r => .brk s3 r
              | .cont s3 => .next s3
              | .fall s3 df3 => commitBlock p s3 df3
        else .next s1

/-- The fueled while-loop: fetch a chunk for the current window (recorded in
the ghost trace) and run the body; none means the fuel ran out with no break
having occurred. -/
def grabLoop (fetch : Int → Int → List Trade) (p : GrabParams) :
    Nat → GrabState → GrabState × Option BreakReason
  | 0, s => (s, none)
  | Nat.succ n, s =>
      let df := fetch s.wFrom s.wTo
      let s0 := { s with fetched := s.fetched ++ [(s.wFrom, s.wTo)] }
      match grabStepDf p s0 df with
      | .brk s1 r => (s1, some r)
      | .next s1 => grabLoop fetch p n s1

/-- Overall outcome of one grab call. -/
structure GrabOutcome where
  state : GrabState
  breakReason : Option BreakReason
  err : Option Err
deriving DecidableEq, Repr

/-- Grabber.grab. The collection is created when absent (col.getD []);
missing from_ts defaults to 0, missing to_ts to now; the two range checks
raise before anything is fetched; after the loop, if anything was recorded
and the whole collection fails the density check, the consistency exception
is raised. -/
def grab (fetch : Int → Int → List Trade) (now : Int)
    (fts fid tts tid : Option Int) (col : Option (List Trade)) (fuel : Nat) : GrabOutcome :=
  let docs := col.getD []
  let from_ts := fts.getD 0
  let to_ts := tts.getD now
  let init : GrabState :=
    { wFrom := max (to_ts - max_window_size) from_ts, wTo := to_ts, anchor := none,
      recording := tid.isNone, anythingRecorded := false, col := docs,
      inserted := [], fetched := [] }
  if to_ts ≤ from_ts then { state := init, breakReason := none, err := some .badRange }
  else if (match fid, tid with
           | some f, some i => decide (i ≤ f)
           | _, _ => false) then
    { state := init, breakReason := none, err := some .badRangeIds }
  else
    let pr := grabLoop fetch { from_ts := from_ts, from_id := fid, to_id := tid } fuel init
    if pr.1.anythingRecorded = true ∧ verify_history_col pr.1.col = false then
      { state := pr.1, breakReason := pr.2, err := some .consistencyBroken }
    else { state := pr.1, breakReason := pr.2, err := none }

/-- The from_ts / to_ts argument of one: a timestamp or one of the string
commands 'oldest' / 'newest' (an unknown string raises and is excluded by
the type). -/
inductive TsArg where
  | num (t : Int)
  | oldest
  | newest
deriving DecidableEq, Repr

/-- Resolve a string command against the collection's bounds. -/
def resolveTs (hi : HistInfo) : TsArg → Int
  | .num t => t
  | .oldest => hi.from_ts
  | .newest => hi.to_ts

/-- The string-resolution step at the top of one, performed only while the
collection is non-empty. -/
def resolveArg (hi : HistInfo) : Option TsArg → Option TsArg
  | some .oldest => some (.num hi.from_ts)
  | some .newest => some (.num hi.to_ts)
  | x => x

/-- The four arguments of a grab sub-call issued by one (ghost record). -/
structure GrabCall where
  from_ts : Option Int
  from_id : Option Int
  to_ts : Option Int
  to_id : Option Int
deriving DecidableEq, Repr

/-- Outcome of one: the pair's collection (none when dropped and nothing
re-created it... the sub-grabs always return a created collection), the
ghost traces of issued grab calls, committed chunks and fetched windows,
and the first exception raised. -/
structure OneOutcome where
  col : Option (List Trade)
  calls : List GrabCall
  inserted : List (List Trade)
  fetched : List (Int × Int)
  err : Option Err
deriving DecidableEq, Repr

/-- The planning part of one, after string resolution and the optional drop:
default the missing bounds, then either reconcile against a non-empty
collection (range check, tail grab, head grab, both against the bounds read
before any grab ran) or issue a single full grab; string commands surviving
to an empty collection raise. resolveTs in the non-empty branch acts on
already-resolved numeric arguments, so it is the identity there. -/
def onePlan (fetch : Int → Int → List Trade) (now : Int) (col : Option (List Trade))
    (fa ta : Option TsArg) (fuel : Nat) : OneOutcome :=
  let fa1 : TsArg := fa.getD (.num 0)
  let ta1 : TsArg := ta.getD (.num now)
  match col with
  | some (d :: ds) =>
      let hi := col_history_info (d :: ds)
      let a := resolveTs hi fa1
      let b := resolveTs hi ta1
      if b ≤ a then
        { col := some (d :: ds), calls := [], inserted := [], fetched := [],
          err := some .badRange }
      else if a < hi.from_ts then
        let g := grab fetch now (some a) none (some hi.from_ts) (some hi.from_id)
          (some (d :: ds)) fuel
        match g.err with
        | some e =>
            { col := some g.state.col,
              calls := [⟨some a, none, some hi.from_ts, some hi.from_id⟩],
              inserted := g.state.inserted, fetched := g.state.fetched, err := some e }
        | none =>
            if hi.to_ts < b then
              let g2 := grab fetch now (some hi.to_ts) (some hi.to_id) (some b) none
                (some g.state.col) fuel
              { col := some g2.state.col,
                calls := [⟨some a, none, some hi.from_ts, some hi.from_id⟩,
                          ⟨some hi.to_ts, some hi.to_id, some b, none⟩],
                inserted := g.state.inserted ++ g2.state.inserted,
                fetched := g.state.fetched ++ g2.state.fetched, err := g2.err }
            else
              { col := some g.state.col,
                calls := [⟨some a, none, some hi.from_ts, some hi.from_id⟩],
                inserted := g.state.inserted, fetched := g.state.fetched, err := none }
      else
        if hi.to_ts < b then
          let g2 := grab fetch now (some hi.to_ts) (some hi.to_id) (some b) none
            (some (d :: ds)) fuel
          { col := some g2.state.col,
            calls := [⟨some hi.to_ts, some hi.to_id, some b, none⟩],
            inserted := g2.state.inserted, fetched := g2.state.fetched, err := g2.err }
        else
          { col := some (d :: ds), calls := [], inserted := [], fetched := [], err := none }
  | _ =>
      match fa1, ta1 with
      | .num a, .num b =>
          let g := grab fetch now (some a) none (some b) none col fuel
          { col := some g.state.col, calls := [⟨some a, none, some b, none⟩],
            inserted := g.state.inserted, fetched := g.state.fetched, err := g.err }
      | _, _ =>
          { col := col, calls := [], inserted := [], fetched := [],
            err := some .emptyCollection }

/-- Grabber.one: resolve string bounds against the collection (only when it
is non-empty), optionally drop it, then plan. -/
def one (fetch : Int → Int → List Trade) (now : Int) (col : Option (List Trade))
    (fa ta : Option TsArg) (drop : Bool) (fuel : Nat) : OneOutcome :=
  match col with
  | some (d :: ds) =>
      let hi := col_history_info (d :: ds)
      let fa1 := resolveArg hi fa
      let ta1 := resolveArg hi ta
      let col1 : Option (List Trade) := if drop then none else some (d :: ds)
      onePlan fetch now col1 fa1 ta1 fuel
  | _ => onePlan fetch now col fa ta fuel

/-- The pairs argument of row: an explicit list, the literal commands 'db'
and 'ticker', or a regex over the ticker pairs. -/
inductive PairsArg where
  | list (ps : List String)
  | db
  | ticker
  | regex (pat : String)
deriving DecidableEq, Repr

/-- The pairs argument of ring: its string branch knows only 'db'; any other
string is a regex over the ticker pairs. -/
inductive RingArg where
  | list (ps : List String)
  | db
  | regex (pat : String)
deriving DecidableEq, Repr

/-- Resolution of row's pairs argument. rmatch abstracts re.search. -/
def resolvePairs (dbNames tickerList : List String) (rmatch : String → String → Bool) :
    PairsArg → List String
  | .list ps => ps
  | .db => dbNames
  | .ticker => tickerList
  | .regex pat => tickerList.filter (rmatch pat)

/-- Resolution of ring's pairs argument. -/
def resolveRing (dbNames tickerList : List String) (rmatch : String → String → Bool) :
    RingArg → List String
  | .list ps => ps
  | .db => dbNames
  | .regex pat => tickerList.filter (rmatch pat)

/-- Sequentially run one over the pair names; an exception from one
propagates and stops the row. The archive state is abstract; oneFn is
Grabber.one specialized to the fixed from_ts / to_ts / drop arguments.
Returns the final state, the pairs actually processed, and the error. -/
def runPairs {α : Type} (oneFn : String → α → α × Option Err) :
    List String → α → α × List String × Option Err
  | [], db => (db, [], none)
  | p :: ps, db =>
      match oneFn p db with
      | (db1, some e) => (db1, [p], some e)
      | (db1, none) =>
          let r := runPairs oneFn ps db1
          (r.1, p :: r.2.1, r.2.2)

/-- Grabber.row: resolve the pairs argument, raise when the resolved list is
empty, then run one per pair. -/
def row {α : Type} (dbNames tickerList : List String) (rmatch : String → String → Bool)
    (oneFn : String → α → α × Option Err) (pairs : PairsArg) (db : α) :
    α × List String × Option Err :=
  let ps := resolvePairs dbNames tickerList rmatch pairs
  if ps.isEmpty then (db, [], some .emptyPairs)
  else runPairs oneFn ps db

/-- The while-True body of ring, fueled: each iteration calls row on the
already-resolved list; an exception propagates. -/
def ringLoop {α : Type} (dbNames tickerList : List String)
    (rmatch : String → String → Bool) (oneFn : String → α → α × Option Err)
    (ps : List String) : Nat → α → α × List String × Option Err
  | 0, db => (db, [], none)
  | Nat.succ n, db =>
      match row dbNames tickerList rmatch oneFn (.list ps) db with
      | (db1, tr, some e) => (db1, tr, some e)
      | (db1, tr, none) =>
          let r := ringLoop dbNames tickerList rmatch oneFn ps n db1
          (r.1, tr ++ r.2.1, r.2.2)

/-- Grabber.ring: resolve the pairs argument ('db' or regex), raise when the
resolved list is empty, then loop row forever (here: for the given number of
iterations). -/
def ring {α : Type} (dbNames tickerList : List String) (rmatch : String → String → Bool)
    (oneFn : String → α → α × Option Err) (pairs : RingArg) (iters : Nat) (db : α) :
    α × List String × Option Err :=
  let ps := resolveRing dbNames tickerList rmatch pairs
  if ps.isEmpty then (db, [], some .emptyPairs)
  else ringLoop dbNames tickerList rmatch oneFn ps iters db

/-- Follows the spec's words (not the source): the minimum trade id over the
chunk's rows, for comparing the spec's gloss of verify against the source's
orientation-based formula. -/
def spec_min_id : List Trade → Int
  | [] => 0
  | t :: ts => ts.foldl (fun m r => min m r.id) t.id

/-- Follows the spec's words (not the source): the maximum trade id over the
chunk's rows. -/
def spec_max_id : List Trade → Int
  | [] => 0
  | t :: ts => ts.foldl (fun m r => max m r.id) t.id

/- Concrete upstream scenarios used as witnesses and counterexamples. -/

/-- A clean trade at ts 150. -/
def rA : Trade := ⟨10, 150, 301, some 5, some 7, some 35, true⟩

/-- A trade at ts 160 with a NaN amount cell. -/
def rB : Trade := ⟨11, 160, 302, none, some 1, some 1, false⟩

/-- Deterministic upstream holding exactly rB and rA (newest first), sound
for timestamp windows. -/
def fetch8 (a b : Int) : List Trade :=
  [rB, rA].filter (fun r => decide (a ≤ r.ts) && decide (r.ts ≤ b))

/-- A trade far in the future relative to rE (more than one window apart). -/
def rC : Trade := ⟨20, 3000000, 401, some 1, some 1, some 1, true⟩

/-- A trade more than max_window_size older than rC. -/
def rE : Trade := ⟨5, 408005, 402, some 1, some 1, some 1, false⟩

/-- Deterministic upstream holding rC and rE, forcing a two-commit walk. -/
def fetchC (a b : Int) : List Trade :=
  [rC, rE].filter (fun r => decide (a ≤ r.ts) && decide (r.ts ≤ b))

/-- Chunk row with id 10. -/
def t10 : Trade := ⟨10, 500, 501, some 1, some 1, some 1, true⟩

/-- Chunk row with the outlier id 99. -/
def t99 : Trade := ⟨99, 501, 502, some 1, some 1, some 1, true⟩

/-- Chunk row with id 12. -/
def t12 : Trade := ⟨12, 502, 503, some 1, some 1, some 1, true⟩

/-- Chunk row with id 13. -/
def t13 : Trade := ⟨13, 503, 504, some 1, some 1, some 1, true⟩

/-- Upstream answering the first window with the unsorted chunk
[t10, t99, t12, t13] and everything else with nothing. -/
def fetchD (x b : Int) : List Trade :=
  if x < b ∧ b = 1000 then [t10, t99, t12, t13] else []

/-- A trade whose ts is below the floor but whose id is above from_id. -/
def t20 : Trade := ⟨20, 50, 405, some 1, some 1, some 1, true⟩

/-- A trade with id below a from_id of 10. -/
def t5 : Trade := ⟨5, 500, 406, some 1, some 1, some 1, false⟩

/-- Row with id 1. -/
def a1 : Trade := ⟨1, 10, 201, some 1, some 1, some 1, true⟩

/-- Row with id 2. -/
def a2 : Trade := ⟨2, 11, 202, some 1, some 1, some 1, true⟩

/-- A second row with id 2 but a different globalid and ts. -/
def a2x : Trade := ⟨2, 12, 203, some 1, some 1, some 1, true⟩

/-- Row with id 4. -/
def a4 : Trade := ⟨4, 13, 204, some 1, some 1, some 1, true⟩

/- Invariants used to prove the run-level properties of grab. -/

/-- Bounds respected by every row of every committed chunk: strictly above a
supplied from_id and strictly below a supplied to_id. -/
def ChunkBounds (p : GrabParams) (c : List Trade) : Prop :=
  ∀ t ∈ c, (∀ f, p.from_id = some f → f < t.id) ∧ (∀ i, p.to_id = some i → t.id < i)

/-- Commits are newest-to-oldest: every row of the later chunk lies strictly
below the from_id of the earlier chunk. -/
def Rdesc (c c1 : List Trade) : Prop :=
  ∀ t ∈ c1, t.id < (df_history_info c).from_id

/-- The run-level property of the committed-chunk trace: descending chain,
every chunk verified, every row within the exclusive id bounds. -/
def ChunksOK (p : GrabParams) (cs : List (List Trade)) : Prop :=
  List.Chain' Rdesc cs ∧ ∀ c ∈ cs, verify_history_df c = true ∧ ChunkBounds p c

/-- The loop invariant of grab, at the top of each iteration. -/
def GInv (p : GrabParams) (s : GrabState) : Prop :=
  ChunksOK p s.inserted ∧
  (s.recording = false → s.inserted = [] ∧ s.anchor = none) ∧
  (∀ a, s.anchor = some a →
    (∃ c, s.inserted.getLast? = some c ∧ (df_history_info c).from_id = a) ∧
    (∀ i, p.to_id = some i → a < i)) ∧
  (s.inserted ≠ [] → s.anchor ≠ none) ∧
  (∀ i, p.to_id = some i → s.recording = true → s.inserted ≠ [])

/- Basic list facts about the chunk operations. -/

theorem mem_headD {l : List Trade} (h : l ≠ []) : l.headD default ∈ l := by
  cases l with
  | nil => exact absurd rfl h
  | cons a as => simp

theorem mem_getLastD_any {l : List Trade} (d : Trade) (h : l ≠ []) : l.getLastD d ∈ l := by
  induction l generalizing d with
  | nil => exact absurd rfl h
  | cons a as ih =>
      cases as with
      | nil => simp [List.getLastD]
      | cons b bs =>
          rw [List.getLastD_cons]
          exact List.mem_cons_of_mem a (ih a (by simp))

theorem mem_getLastD {l : List Trade} (h : l ≠ []) : l.getLastD default ∈ l :=
  mem_getLastD_any default h

theorem hist_from_id_mem {l : List Trade} (h : l ≠ []) :
    ∃ t ∈ l, t.id = (df_history_info l).from_id := by
  unfold df_history_info
  simp only
  split
  · exact ⟨l.getLastD default, mem_getLastD h, rfl⟩
  · exact ⟨l.headD default, mem_headD h, rfl⟩

theorem mem_of_mem_dropna {t : Trade} {l : List Trade} (h : t ∈ dropna l) : t ∈ l :=
  (List.mem_filter.mp h).1

theorem mem_of_mem_dropDupAux {t : Trade} :
    ∀ (l : List Trade) (seen), t ∈ dropDupAux seen l → t ∈ l := by
  intro l
  induction l with
  | nil => intro seen h; exact absurd h (by simp [dropDupAux])
  | cons a as ih =>
      intro seen h
      unfold dropDupAux at h
      split at h
      · exact List.mem_cons_of_mem a (ih seen h)
      · rcases List.mem_cons.mp h with h1 | h1
        · exact h1 ▸ List.mem_cons_self a as
        · exact List.mem_cons_of_mem a (ih _ h1)

theorem mem_of_mem_drop_duplicates {t : Trade} {l : List Trade}
    (h : t ∈ drop_duplicates l) : t ∈ l :=
  mem_of_mem_dropDupAux l [] h

theorem pairwise_cols_dropDupAux :
    ∀ (l : List Trade) (seen),
      (dropDupAux seen l).Pairwise (fun x y => Trade.cols x ≠ Trade.cols y) ∧
      ∀ t ∈ dropDupAux seen l, t.cols ∉ seen := by
  intro l
  induction l with
  | nil => intro seen; simp [dropDupAux]
  | cons a as ih =>
      intro seen
      unfold dropDupAux
      split
      · exact ih seen
      · rename_i hnot
        refine ⟨List.pairwise_cons.mpr ⟨?_, (ih (a.cols :: seen)).1⟩, ?_⟩
        · intro t ht heq
          exact (ih (a.cols :: seen)).2 t ht (by simp [heq])
        · intro t ht
          rcases List.mem_cons.mp ht with h1 | h1
          · rw [h1]; exact hnot
          · intro hs
            exact (ih (a.cols :: seen)).2 t h1 (List.mem_cons_of_mem _ hs)

theorem pairwise_cols_drop_duplicates (l : List Trade) :
    (drop_duplicates l).Pairwise (fun x y => Trade.cols x ≠ Trade.cols y) :=
  (pairwise_cols_dropDupAux l []).1

theorem drop_duplicates_ne_nil {l : List Trade} (h : l ≠ []) : drop_duplicates l ≠ [] := by
  cases l with
  | nil => exact absurd rfl h
  | cons a as => simp [drop_duplicates, dropDupAux]

/- Inversion lemmas for the blocks of the loop body. -/

theorem seekBlock_brk_inv {p s df s1 r} (h : seekBlock p s df = .brk s1 r) :
    s1.inserted = s.inserted ∧ s1.anchor = s.anchor := by
  unfold seekBlock seekElse at h
  simp only [] at h
  split at h
  · simp at h
  · split at h
    · split at h
      · split at h
        · rw [Flow.brk.injEq] at h
          rw [← h.1]
          exact ⟨rfl, rfl⟩
        · simp at h
      · split at h
        · rw [Flow.brk.injEq] at h
          rw [← h.1]
          exact ⟨rfl, rfl⟩
        · split at h
          · rw [Flow.brk.injEq] at h
            rw [← h.1]
            exact ⟨rfl, rfl⟩
          · simp at h
    · split at h
      · rw [Flow.brk.injEq] at h
        rw [← h.1]
        exact ⟨rfl, rfl⟩
      · split at h
        · rw [Flow.brk.injEq] at h
          rw [← h.1]
          exact ⟨rfl, rfl⟩
        · simp at h

theorem seekBlock_cont_inv {p s df s1} (h : seekBlock p s df = .cont s1) :
    s1.inserted = s.inserted ∧ s1.anchor = s.anchor ∧ s1.recording = s.recording := by
  unfold seekBlock seekElse at h
  simp only [] at h
  split at h
  · simp at h
  · split at h
    · split at h
      · split at h
        · simp at h
        · simp at h
      · split at h
        · simp at h
        · split at h
          · simp at h
          · rw [Flow.cont.injEq] at h
            rw [← h]
            exact ⟨rfl, rfl, rfl⟩
    · split at h
      · simp at h
      · split at h
        · simp at h
        · rw [Flow.cont.injEq] at h
          rw [← h]
          exact ⟨rfl, rfl, rfl⟩

theorem seekBlock_fall_inv {p s df s1 df1} (h : seekBlock p s df = .fall s1 df1) :
    (s.recording = true ∧ s1 = s ∧ df1 = df) ∨
    (s.recording = false ∧ ∃ i, p.to_id = some i ∧ s1 = { s with recording := true } ∧
      df1 = df.filter (fun r => decide (r.id < i)) ∧ df1.isEmpty = false) := by
  unfold seekBlock seekElse at h
  simp only [] at h
  split at h
  · rename_i hrec
    rw [Flow.fall.injEq] at h
    exact Or.inl ⟨hrec, h.1.symm, h.2.symm⟩
  · rename_i hrec
    split at h
    · rename_i i hi
      split at h
      · split at h
        · simp at h
        · rename_i hne
          rw [Flow.fall.injEq] at h
          refine Or.inr ⟨by simpa using hrec, i, hi, h.1.symm, h.2.symm, ?_⟩
          rw [← h.2]
          simpa using hne
      · split at h
        · simp at h
        · split at h
          · simp at h
          · simp at h
    · split at h
      · simp at h
      · split at h
        · simp at h
        · simp at h

theorem anchorBlock_brk_inv {s df s1 r} (h : anchorBlock s df = .brk s1 r) :
    s1 = s := by
  unfold anchorBlock at h
  simp only [] at h
  split at h
  · simp at h
  · split at h
    · split at h
      · rw [Flow.brk.injEq] at h
        exact h.1.symm
      · simp at h
    · rw [Flow.brk.injEq] at h
      exact h.1.symm

theorem anchorBlock_fall_inv {s df s1 df1} (h : anchorBlock s df = .fall s1 df1) :
    s1 = s ∧ ((s.anchor = none ∧ df1 = df) ∨
      (∃ a, s.anchor = some a ∧ df1 = df.filter (fun r => decide (r.id < a)))) := by
  unfold anchorBlock at h
  simp only [] at h
  split at h
  · rename_i ha
    rw [Flow.fall.injEq] at h
    exact ⟨h.1.symm, Or.inl ⟨ha, h.2.symm⟩⟩
  · rename_i a ha
    split at h
    · split at h
      · simp at h
      · rw [Flow.fall.injEq] at h
        exact ⟨h.1.symm, Or.inr ⟨a, ha, h.2.symm⟩⟩
    · simp at h

theorem lowerBlock_brk_inv {p s df s1 r} (h : lowerBlock p s df = .brk s1 r) :
    s1.inserted = s.inserted ∨
    ∃ c, c ≠ [] ∧ verify_history_df c = true ∧ (∀ t ∈ c, t ∈ df) ∧
      (∀ f, p.from_id = some f → ∀ t ∈ c, f < t.id) ∧
      s1 = { s with col := s.col ++ c, inserted := s.inserted ++ [c],
                    anythingRecorded := true } := by
  unfold lowerBlock at h
  simp only [] at h
  split at h
  · rename_i f hf
    split at h
    · split at h
      · rw [Flow.brk.injEq] at h
        exact Or.inl (by rw [← h.1])
      · split at h
        · rename_i hne hv
          rw [Flow.brk.injEq] at h
          refine Or.inr ⟨df.filter (fun r => decide (f < r.id)), by simpa using hne, hv, ?_, ?_, h.1.symm⟩
          · intro t ht
            exact (List.mem_filter.mp ht).1
          · intro f1 hf1 t ht
            rw [hf] at hf1
            cases hf1
            have := (List.mem_filter.mp ht).2
            exact of_decide_eq_true this
        · rw [Flow.brk.injEq] at h
          exact Or.inl (by rw [← h.1])
    · simp at h
  · rename_i hnone
    split at h
    · split at h
      · rw [Flow.brk.injEq] at h
        exact Or.inl (by rw [← h.1])
      · split at h
        · rename_i hne hv
          rw [Flow.brk.injEq] at h
          refine Or.inr ⟨df.filter (fun r => decide (p.from_ts ≤ r.ts)), by simpa using hne, hv, ?_, ?_, h.1.symm⟩
          · intro t ht
            exact (List.mem_filter.mp ht).1
          · intro f1 hf1
            rw [hnone] at hf1
            cases hf1
        · rw [Flow.brk.injEq] at h
          exact Or.inl (by rw [← h.1])
    · simp at h

theorem lowerBlock_fall_inv {p s df s1 df1} (h : lowerBlock p s df = .fall s1 df1) :
    s1 = s ∧ df1 = df ∧
      (∀ f, p.from_id = some f → df.any (fun r => decide (r.id ≤ f)) = false) := by
  unfold lowerBlock at h
  simp only [] at h
  split at h
  · rename_i f hf
    split at h
    · split at h
      · simp at h
      · split at h
        · simp at h
        · simp at h
    · rename_i hany
      rw [Flow.fall.injEq] at h
      refine ⟨h.1.symm, h.2.symm, ?_⟩
      intro f1 hf1
      rw [hf] at hf1
      cases hf1
      simpa using hany
  · rename_i hfid
    split at h
    · split at h
      · simp at h
      · split at h
        · simp at h
        · simp at h
    · rw [Flow.fall.injEq] at h
      refine ⟨h.1.symm, h.2.symm, ?_⟩
      intro f1 hf1
      rw [hfid] at hf1
      cases hf1

theorem commitBlock_brk_inv {p s df s1 r} (h : commitBlock p s df = .brk s1 r) :
    s1 = s := by
  unfold commitBlock at h
  simp only [] at h
  split at h
  · rw [StepRes.brk.injEq] at h
    exact h.1.symm
  · split at h
    · rw [StepRes.brk.injEq] at h
      exact h.1.symm
    · split at h
      · simp at h
      · rw [StepRes.brk.injEq] at h
        exact h.1.symm

theorem commitBlock_next_inv {p s df s1} (h : commitBlock p s df = .next s1) :
    drop_duplicates (dropna df) ≠ [] ∧
    verify_history_df (drop_duplicates (dropna df)) = true ∧
    s1 = { s with col := s.col ++ drop_duplicates (dropna df),
                  inserted := s.inserted ++ [drop_duplicates (dropna df)],
                  anythingRecorded := true,
                  wFrom := max ((df_history_info (drop_duplicates (dropna df))).from_ts -
                    max_window_size) p.from_ts,
                  wTo := (df_history_info (drop_duplicates (dropna df))).from_ts,
                  anchor := some (df_history_info (drop_duplicates (dropna df))).from_id } := by
  unfold commitBlock at h
  simp only [] at h
  split at h
  · simp at h
  · split at h
    · simp at h
    · split at h
      · rename_i hne2 hv
        rw [StepRes.next.injEq] at h
        exact ⟨by simpa using hne2, hv, h.symm⟩
      · simp at h

/- The master invariant: auxiliary transfer and append lemmas. -/

theorem GInv_transfer {p : GrabParams} {s s1 : GrabState} (h : GInv p s)
    (hi : s1.inserted = s.inserted) (ha : s1.anchor = s.anchor)
    (hr : s1.recording = s.recording) : GInv p s1 := by
  obtain ⟨h1, h2, h3, h4, h5⟩ := h
  refine ⟨by rw [hi]; exact h1, ?_, ?_, ?_, ?_⟩
  · rw [hr, hi, ha]; exact h2
  · rw [ha, hi]; exact h3
  · rw [hi, ha]; exact h4
  · rw [hr, hi]; exact h5

theorem chunksOK_append {p : GrabParams} {s : GrabState} (h : GInv p s) {c : List Trade}
    (hver : verify_history_df c = true) (hb : ChunkBounds p c)
    (hanch : ∀ a, s.anchor = some a → ∀ t ∈ c, t.id < a) :
    ChunksOK p (s.inserted ++ [c]) := by
  obtain ⟨⟨hchain, hmem⟩, _, h3, h4, _⟩ := h
  constructor
  · rw [List.chain'_append]
    refine ⟨hchain, List.chain'_singleton c, ?_⟩
    intro x hx y hy
    have hy' : y = c := by simpa using hy.symm
    subst hy'
    have hne : s.inserted ≠ [] := by
      intro he
      rw [he] at hx
      simp at hx
    have hx' : s.inserted.getLast? = some x := hx
    rcases ho : s.anchor with _ | a
    · exact absurd ho (h4 hne)
    · obtain ⟨⟨cl, hcl, hfid⟩, _⟩ := h3 a ho
      rw [hcl] at hx'
      injection hx' with hx2
      intro t ht
      rw [← hx2, hfid]
      exact hanch a ho t ht
  · intro c1 hc1
    rcases List.mem_append.mp hc1 with h1 | h1
    · exact hmem c1 h1
    · have : c1 = c := by simpa using h1
      subst this
      exact ⟨hver, hb⟩

theorem anchorBlock_ne_cont {s df s2} (h : anchorBlock s df = .cont s2) : False := by
  unfold anchorBlock at h
  simp only [] at h
  split at h
  · simp at h
  · split at h
    · split at h
      · simp at h
      · simp at h
    · simp at h

theorem lowerBlock_ne_cont {p s df s2} (h : lowerBlock p s df = .cont s2) : False := by
  unfold lowerBlock at h
  simp only [] at h
  split at h
  · split at h
    · split at h
      · simp at h
      · split at h
        · simp at h
        · simp at h
    · simp at h
  · split at h
    · split at h
      · simp at h
      · split at h
        · simp at h
        · simp at h
    · simp at h

theorem grabStepDf_preserve (p : GrabParams) (s : GrabState) (df : List Trade)
    (h : GInv p s) :
    (∃ s1, grabStepDf p s df = .next s1 ∧ GInv p s1) ∨
    (∃ s1 r1, grabStepDf p s df = .brk s1 r1 ∧ ChunksOK p s1.inserted) := by
  unfold grabStepDf
  split
  · -- empty chunk
    split
    · exact Or.inr ⟨s, .nothingReturned, rfl, h.1⟩
    · exact Or.inl ⟨_, rfl, GInv_transfer h rfl rfl rfl⟩
  · rcases hseek : seekBlock p s df with ⟨s1, r1⟩ | s1 | ⟨s1, df1⟩
    · refine Or.inr ⟨s1, r1, rfl, ?_⟩
      rw [(seekBlock_brk_inv hseek).1]
      exact h.1
    · obtain ⟨hi, ha, hr⟩ := seekBlock_cont_inv hseek
      exact Or.inl ⟨s1, rfl, GInv_transfer h hi ha hr⟩
    · obtain hfall := seekBlock_fall_inv hseek
      have hs1i : s1.inserted = s.inserted := by
        rcases hfall with ⟨_, hs, _⟩ | ⟨_, _, _, hs, _⟩ <;> rw [hs]
      have hs1a : s1.anchor = s.anchor := by
        rcases hfall with ⟨_, hs, _⟩ | ⟨_, _, _, hs, _⟩ <;> rw [hs]
      have hs1r : s1.recording = true := by
        rcases hfall with ⟨hA, hs, _⟩ | ⟨_, _, _, hs, _⟩ <;> rw [hs]
        exact hA
      dsimp only []
      rw [if_pos hs1r]
      rcases hanc : anchorBlock s1 df1 with ⟨s2, r2⟩ | s2 | ⟨s2, df2⟩
      · refine Or.inr ⟨s2, r2, rfl, ?_⟩
        rw [anchorBlock_brk_inv hanc, hs1i]
        exact h.1
      · exact absurd hanc (fun hc => anchorBlock_ne_cont hc)
      · obtain ⟨hs2eq, hancase⟩ := anchorBlock_fall_inv hanc
        have hs2i : s2.inserted = s.inserted := by rw [hs2eq, hs1i]
        have hs2a : s2.anchor = s.anchor := by rw [hs2eq, hs1a]
        have hs2r : s2.recording = true := by rw [hs2eq, hs1r]
        -- the post-anchor chunk lies strictly below any anchor
        have hanch2 : ∀ a, s.anchor = some a → ∀ t ∈ df2, t.id < a := by
          intro a ha t ht
          rcases hancase with ⟨hnone, _⟩ | ⟨a1, ha1, hd⟩
          · rw [hs1a, ha] at hnone
            cases hnone
          · rw [hs1a, ha] at ha1
            injection ha1 with ha2
            subst ha2
            rw [hd] at ht
            exact of_decide_eq_true (List.mem_filter.mp ht).2
        have hsub21 : ∀ t ∈ df2, t ∈ df1 := by
          intro t ht
          rcases hancase with ⟨_, hd⟩ | ⟨a1, _, hd⟩
          · rw [← hd]
            exact ht
          · rw [hd] at ht
            exact (List.mem_filter.mp ht).1
        -- the post-anchor chunk lies strictly below a supplied to_id
        have hto2 : ∀ i, p.to_id = some i → ∀ t ∈ df2, t.id < i := by
          intro i hi t ht
          rcases hfall with ⟨hA, _, hdf1⟩ | ⟨_, i1, hi1, _, hdf1, _⟩
          · have hne := h.2.2.2.2 i hi hA
            have hanne := h.2.2.2.1 hne
            rcases hao : s.anchor with _ | a
            · exact absurd hao hanne
            · have hai := (h.2.2.1 a hao).2 i hi
              exact lt_trans (hanch2 a hao t ht) hai
          · rw [hi1] at hi
            injection hi with hi2
            subst hi2
            have ht1 := hsub21 t ht
            rw [hdf1] at ht1
            exact of_decide_eq_true (List.mem_filter.mp ht1).2
        dsimp only []
        rcases hlow : lowerBlock p s2 df2 with ⟨s3, r3⟩ | s3 | ⟨s3, df3⟩
        · refine Or.inr ⟨s3, r3, rfl, ?_⟩
          rcases lowerBlock_brk_inv hlow with hsame | ⟨c, hcne, hcv, hcsub, hcfid, hs3⟩
          · rw [hsame, hs2i]
            exact h.1
          · rw [hs3]
            show ChunksOK p (s2.inserted ++ [c])
            rw [hs2i]
            refine chunksOK_append h hcv ?_ ?_
            · intro t ht
              refine ⟨fun f hf => hcfid f hf t ht, fun i hi => hto2 i hi t (hcsub t ht)⟩
            · intro a ha t ht
              exact hanch2 a ha t (hcsub t ht)
        · exact absurd hlow (fun hc => lowerBlock_ne_cont hc)
        · obtain ⟨hs3eq, hdf3eq, hlfid⟩ := lowerBlock_fall_inv hlow
          dsimp only []
          rcases hcom : commitBlock p s3 df3 with s4 | ⟨s4, r4⟩
          · obtain ⟨hcne, hcv, hs4⟩ := commitBlock_next_inv hcom
            have hcsub : ∀ t ∈ drop_duplicates (dropna df3), t ∈ df2 := by
              intro t ht
              rw [hdf3eq] at ht
              exact mem_of_mem_dropna (mem_of_mem_drop_duplicates ht)
            have hcfid : ∀ f, p.from_id = some f →
                ∀ t ∈ drop_duplicates (dropna df3), f < t.id := by
              intro f hf t ht
              have hany := hlfid f hf
              have ht2 := hcsub t ht
              by_contra hle
              have hx : df2.any (fun r => decide (r.id ≤ f)) = true := by
                rw [List.any_eq_true]
                exact ⟨t, ht2, by simpa using le_of_not_lt hle⟩
              rw [hany] at hx
              cases hx
            refine Or.inl ⟨s4, rfl, ?_⟩
            have hok : ChunksOK p (s.inserted ++ [drop_duplicates (dropna df3)]) := by
              refine chunksOK_append h hcv ?_ ?_
              · intro t ht
                refine ⟨fun f hf => hcfid f hf t ht, fun i hi => hto2 i hi t (hcsub t ht)⟩
              · intro a ha t ht
                exact hanch2 a ha t (hcsub t ht)
            have hs4i : s4.inserted = s.inserted ++ [drop_duplicates (dropna df3)] := by
              rw [hs4, hs3eq]
              show s2.inserted ++ [drop_duplicates (dropna df3)] = _
              rw [hs2i]
            have hs4r : s4.recording = true := by
              rw [hs4, hs3eq]
              exact hs2r
            have hs4a : s4.anchor =
                some (df_history_info (drop_duplicates (dropna df3))).from_id := by
              rw [hs4]
            refine ⟨by rw [hs4i]; exact hok, ?_, ?_, ?_, ?_⟩
            · intro hrf
              rw [hs4r] at hrf
              cases hrf
            · intro a ha
              rw [hs4a] at ha
              injection ha with ha1
              constructor
              · refine ⟨drop_duplicates (dropna df3), ?_, ha1⟩
                rw [hs4i]
                exact List.getLast?_concat _
              · intro i hi
                obtain ⟨t, ht, hid⟩ := hist_from_id_mem hcne
                rw [← ha1, ← hid]
                exact hto2 i hi t (hcsub t ht)
            · intro hne
              rw [hs4a]
              simp
            · intro i hi hrec
              rw [hs4i]
              simp
          · refine Or.inr ⟨s4, r4, rfl, ?_⟩
            rw [commitBlock_brk_inv hcom, hs3eq, hs2i]
            exact h.1

theorem GInv_init (p : GrabParams) (s : GrabState) (hi : s.inserted = [])
    (ha : s.anchor = none) (hr : s.recording = p.to_id.isNone) : GInv p s := by
  refine ⟨⟨by rw [hi]; exact List.chain'_nil, by rw [hi]; simp⟩, fun _ => ⟨hi, ha⟩, ?_, ?_, ?_⟩
  · intro a haa
    rw [ha] at haa
    cases haa
  · intro hne
    exact absurd hi hne
  · intro i hto hrec
    rw [hr, hto] at hrec
    simp at hrec

theorem grabLoop_chunksOK (fetch : Int → Int → List Trade) (p : GrabParams) :
    ∀ (n : Nat) (s : GrabState), GInv p s →
      ChunksOK p (grabLoop fetch p n s).1.inserted := by
  intro n
  induction n with
  | zero => intro s hs; exact hs.1
  | succ n ih =>
      intro s hs
      unfold grabLoop
      simp only []
      have hs0 : GInv p { s with fetched := s.fetched ++ [(s.wFrom, s.wTo)] } :=
        GInv_transfer hs rfl rfl rfl
      rcases grabStepDf_preserve p _ (fetch s.wFrom s.wTo) hs0 with
        ⟨s1, he, hinv⟩ | ⟨s1, r1, he, hok⟩
      · rw [he]
        exact ih s1 hinv
      · rw [he]
        exact hok

theorem grab_chunksOK (fetch : Int → Int → List Trade) (now : Int)
    (fts fid tts tid : Option Int) (col : Option (List Trade)) (fuel : Nat) :
    ChunksOK ⟨fts.getD 0, fid, tid⟩
      (grab fetch now fts fid tts tid col fuel).state.inserted := by
  unfold grab
  simp only []
  split
  · exact ⟨List.chain'_nil, by simp⟩
  · split
    · exact ⟨List.chain'_nil, by simp⟩
    · split
      · exact grabLoop_chunksOK fetch _ fuel _ (GInv_init _ _ rfl rfl rfl)
      · exact grabLoop_chunksOK fetch _ fuel _ (GInv_init _ _ rfl rfl rfl)

/- Claim theorems. -/

/-- C1 (amended): every chunk that grab hands to insert_docs passed the
verify gate at insertion time, at each of the three insertion sites: its
record count equals to_id - from_id + 1, where to_id and from_id are the
orientation bounds of df_history_info (the first/last-row comparison). The
original claim's parenthetical gloss, that this equals
max_id - min_id + 1 over the rows, fails for chunks not sorted by id; see
the counterexample. -/
theorem grab_inserted_passes_verify (fetch : Int → Int → List Trade) (now : Int)
    (fts fid tts tid : Option Int) (col : Option (List Trade)) (fuel : Nat)
    (c : List Trade) (hc : c ∈ (grab fetch now fts fid tts tid col fuel).state.inserted) :
    verify_history_df c = true ∧
      ((c.length : Int) =
        (df_history_info c).to_id - (df_history_info c).from_id + 1) := by
  have hv := ((grab_chunksOK fetch now fts fid tts tid col fuel).2 c hc).1
  exact ⟨hv, of_decide_eq_true hv⟩

/-- C1 witness: the single-chunk run over fetch8 commits [rA], which
verifies. -/
theorem grab_inserted_passes_verify_w :
    verify_history_df [rA] = true ∧
      (([rA].length : Int) =
        (df_history_info [rA]).to_id - (df_history_info [rA]).from_id + 1) :=
  grab_inserted_passes_verify fetch8 200 (some 100) none (some 200) none none 10
    [rA] (by decide)

/-- C1 counterexample: grab commits the unsorted chunk [t10, t99, t12, t13]
(its orientation bounds are 10 and 13, count 4 = 13 - 10 + 1, so verify
passes), yet its count differs from max_id - min_id + 1 = 90; the
parenthetical equivalence in the claim is false, and the post-run
collection check then raises the consistency exception. -/
theorem grab_minmax_gloss_cex :
    (grab fetchD 2000 (some 1) none (some 1000) none none 10).state.inserted =
      [[t10, t99, t12, t13]] ∧
    verify_history_df [t10, t99, t12, t13] = true ∧
    ¬ (([t10, t99, t12, t13].length : Int) =
        spec_max_id [t10, t99, t12, t13] - spec_min_id [t10, t99, t12, t13] + 1) ∧
    (grab fetchD 2000 (some 1) none (some 1000) none none 10).err =
      some .consistencyBroken := by decide

/-- C2: when from_id and/or to_id are supplied to grab, no inserted record
has id equal to either bound: every inserted id is strictly greater than
from_id and strictly less than to_id. -/
theorem grab_never_inserts_bound_ids (fetch : Int → Int → List Trade) (now : Int)
    (fts fid tts tid : Option Int) (col : Option (List Trade)) (fuel : Nat)
    (c : List Trade) (hc : c ∈ (grab fetch now fts fid tts tid col fuel).state.inserted)
    (t : Trade) (ht : t ∈ c) :
    (∀ f, fid = some f → t.id ≠ f ∧ f < t.id) ∧
    (∀ i, tid = some i → t.id ≠ i ∧ t.id < i) := by
  have hb := ((grab_chunksOK fetch now fts fid tts tid col fuel).2 c hc).2 t ht
  refine ⟨fun f hf => ?_, fun i hi => ?_⟩
  · have := hb.1 f hf
    exact ⟨this.ne', this⟩
  · have := hb.2 i hi
    exact ⟨this.ne, this⟩

/-- C2 witness: the head grab with from_id = 10 commits rB (id 11 > 10),
and the seek grab with to_id = 11 commits rA (id 10 < 11). -/
theorem grab_never_inserts_bound_ids_w :
    (rB.id ≠ 10 ∧ (10 : Int) < rB.id) ∧ (rA.id ≠ 11 ∧ rA.id < 11) :=
  ⟨(grab_never_inserts_bound_ids fetch8 200 (some 150) (some 10) (some 200) none
      (some [rA]) 10 [rB] (by decide) rB (by decide)).1 10 rfl,
   (grab_never_inserts_bound_ids fetch8 200 (some 100) none (some 200) (some 11)
      none 10 [rA] (by decide) rA (by decide)).2 11 rfl⟩

/-- C3: within one grab, commits are strictly newest-to-oldest in id (every
record of each later commit lies strictly below the from_id of the
previously committed chunk, which is the anchor), and when a fetched
non-empty chunk has no row with id at or above the anchor, the step breaks
with the missing-anchor reason, leaving the state (hence the archive and
the committed trace) unchanged. -/
theorem grab_commits_newest_to_oldest (fetch : Int → Int → List Trade) (now : Int)
    (fts fid tts tid : Option Int) (col : Option (List Trade)) (fuel : Nat) :
    List.Chain' (fun c c1 => ∀ t ∈ c1, t.id < (df_history_info c).from_id)
      (grab fetch now fts fid tts tid col fuel).state.inserted ∧
    (∀ (p : GrabParams) (s : GrabState) (df : List Trade) (a : Int),
      s.recording = true → s.anchor = some a → df ≠ [] → (∀ t ∈ df, t.id < a) →
      grabStepDf p s df = .brk s .missingAnchor) := by
  constructor
  · exact (grab_chunksOK fetch now fts fid tts tid col fuel).1
  · intro p s df a hrec ha hdf hlt
    have hne : ¬ df.isEmpty = true := by
      simp only [List.isEmpty_iff]
      exact hdf
    have hsb : seekBlock p s df = .fall s df := by
      unfold seekBlock
      rw [if_pos hrec]
    have hany : df.any (fun r => decide (a ≤ r.id)) = false := by
      cases hq : df.any (fun r => decide (a ≤ r.id)) with
      | false => rfl
      | true =>
          exfalso
          obtain ⟨t, ht, hd⟩ := List.any_eq_true.mp hq
          exact absurd (of_decide_eq_true hd) (not_le.mpr (hlt t ht))
    have hab : anchorBlock s df = .brk s .missingAnchor := by
      unfold anchorBlock
      rw [ha]
      simp only []
      rw [if_neg (by rw [hany]; exact Bool.false_ne_true)]
    unfold grabStepDf
    rw [if_neg hne, hsb]
    dsimp only []
    rw [if_pos hrec, hab]

/-- C3 witness: the sparse two-window run commits [[rC], [rE]] with rE.id 5
below [rC]'s from_id 20, and a concrete recording state with anchor 100 on
a chunk of smaller ids breaks with the missing-anchor reason. -/
theorem grab_commits_newest_to_oldest_w :
    List.Chain' (fun c c1 => ∀ t ∈ c1, t.id < (df_history_info c).from_id)
      (grab fetchC 4000000 (some 1) none (some 3000010) none none 10).state.inserted ∧
    grabStepDf ⟨0, none, none⟩ ⟨0, 0, some 100, true, false, [], [], []⟩ [t5] =
      .brk ⟨0, 0, some 100, true, false, [], [], []⟩ .missingAnchor :=
  ⟨(grab_commits_newest_to_oldest fetchC 4000000 (some 1) none (some 3000010)
      none none 10).1,
   (grab_commits_newest_to_oldest fetchC 4000000 (some 1) none (some 3000010)
      none none 10).2 ⟨0, none, none⟩ ⟨0, 0, some 100, true, false, [], [], []⟩
      [t5] 100 rfl rfl (by decide) (by decide)⟩

/-- C4: at any loop iteration whose fetch returns an empty chunk, grab
terminates normally when anything was recorded or the window start already
sits at the floor from_ts; otherwise it continues with the window shifted
one step older: new to_ts = old window from_ts and new from_ts =
max(old window from_ts - MAX_WINDOW, from_ts), where MAX_WINDOW is
TimePeriod.MONTH = 30 * DAY = 2592000 seconds. -/
theorem grab_empty_fetch_window_shift (fetch : Int → Int → List Trade)
    (p : GrabParams) (n : Nat) (s : GrabState)
    (hf : fetch s.wFrom s.wTo = []) :
    (s.anythingRecorded = true ∨ s.wFrom = p.from_ts →
      grabLoop fetch p (n + 1) s =
        ({ s with fetched := s.fetched ++ [(s.wFrom, s.wTo)] }, some .nothingReturned)) ∧
    (s.anythingRecorded = false → s.wFrom ≠ p.from_ts →
      grabLoop fetch p (n + 1) s =
        grabLoop fetch p n
          { s with fetched := s.fetched ++ [(s.wFrom, s.wTo)], wTo := s.wFrom,
                   wFrom := max (s.wFrom - TimePeriod.MONTH) p.from_ts }) ∧
    max_window_size = TimePeriod.MONTH ∧
    TimePeriod.MONTH = 30 * TimePeriod.DAY ∧ TimePeriod.MONTH = 2592000 := by
  refine ⟨?_, ?_, rfl, by decide, by decide⟩
  · intro hc
    unfold grabLoop
    simp only []
    rw [hf]
    unfold grabStepDf
    rw [if_pos (by rfl), if_pos hc]
  · intro ha hw
    simp only [grabLoop]
    rw [hf]
    unfold grabStepDf
    rw [if_pos (by rfl),
      if_neg (fun hor => hor.elim (fun h1 => by rw [ha] at h1; cases h1) hw)]
    rfl

/-- C4 witness: with an upstream returning nothing, a recorded state stops,
and an unrecorded state away from the floor shifts the window by one month
step. -/
theorem grab_empty_fetch_window_shift_w :
    grabLoop (fun _ _ => []) ⟨0, none, none⟩ 3 ⟨50, 90, none, true, true, [], [], []⟩ =
      (⟨50, 90, none, true, true, [], [], [(50, 90)]⟩, some .nothingReturned) ∧
    grabLoop (fun _ _ => []) ⟨0, none, none⟩ 1 ⟨50, 90, none, true, false, [], [], []⟩ =
      grabLoop (fun _ _ => []) ⟨0, none, none⟩ 0
        ⟨max (50 - TimePeriod.MONTH) 0, 50, none, true, false, [], [], [(50, 90)]⟩ :=
  ⟨(grab_empty_fetch_window_shift (fun _ _ => []) ⟨0, none, none⟩ 2
      ⟨50, 90, none, true, true, [], [], []⟩ rfl).1 (Or.inl rfl),
   (grab_empty_fetch_window_shift (fun _ _ => []) ⟨0, none, none⟩ 0
      ⟨50, 90, none, true, false, [], [], []⟩ rfl).2.1 rfl (by decide)⟩

theorem grab_bad_cases (fetch : Int → Int → List Trade) (now : Int)
    (fts fid tts tid : Option Int) (col : Option (List Trade)) (fuel : Nat) :
    (tts.getD now ≤ fts.getD 0 →
      (grab fetch now fts fid tts tid col fuel).err = some .badRange ∧
      (grab fetch now fts fid tts tid col fuel).state.fetched = [] ∧
      (grab fetch now fts fid tts tid col fuel).state.inserted = [] ∧
      (grab fetch now fts fid tts tid col fuel).state.col = col.getD []) ∧
    (¬ tts.getD now ≤ fts.getD 0 →
      (∃ f i, fid = some f ∧ tid = some i ∧ i ≤ f) →
      (grab fetch now fts fid tts tid col fuel).err = some .badRangeIds ∧
      (grab fetch now fts fid tts tid col fuel).state.fetched = [] ∧
      (grab fetch now fts fid tts tid col fuel).state.inserted = [] ∧
      (grab fetch now fts fid tts tid col fuel).state.col = col.getD []) ∧
    (¬ tts.getD now ≤ fts.getD 0 →
      ¬ (∃ f i, fid = some f ∧ tid = some i ∧ i ≤ f) →
      (grab fetch now fts fid tts tid col fuel).err = none ∨
      (grab fetch now fts fid tts tid col fuel).err = some .consistencyBroken) := by
  unfold grab
  simp only []
  split
  · rename_i h1
    exact ⟨fun _ => ⟨rfl, rfl, rfl, rfl⟩, fun hn1 _ => absurd h1 hn1,
      fun hn1 _ => absurd h1 hn1⟩
  · rename_i h1
    split
    · rename_i h2
      refine ⟨fun hc1 => absurd hc1 h1, fun _ _ => ⟨rfl, rfl, rfl, rfl⟩,
        fun _ hn2 => ?_⟩
      exfalso
      apply hn2
      rcases fid with _ | f
      · simp at h2
      · rcases tid with _ | i
        · simp at h2
        · exact ⟨f, i, rfl, rfl, of_decide_eq_true h2⟩
    · rename_i h2
      refine ⟨fun hc1 => absurd hc1 h1, fun _ hc2 => ?_, fun _ _ => ?_⟩
      · exfalso
        obtain ⟨f, i, hf, hi, hle⟩ := hc2
        rw [hf, hi] at h2
        exact h2 (by simpa using hle)
      · split
        · exact Or.inr rfl
        · exact Or.inl rfl

theorem one_rejects_inverted (fetch : Int → Int → List Trade) (now : Int)
    (col1 : Option (List Trade)) (a b : Int) (drop : Bool) (fuel : Nat)
    (hba : b ≤ a) :
    (one fetch now col1 (some (.num a)) (some (.num b)) drop fuel).err = some .badRange ∧
    (one fetch now col1 (some (.num a)) (some (.num b)) drop fuel).inserted = [] ∧
    (one fetch now col1 (some (.num a)) (some (.num b)) drop fuel).fetched = [] := by
  have hg : ∀ c, (grab fetch now (some a) none (some b) none c fuel).err =
      some .badRange ∧
      (grab fetch now (some a) none (some b) none c fuel).state.fetched = [] ∧
      (grab fetch now (some a) none (some b) none c fuel).state.inserted = [] ∧
      (grab fetch now (some a) none (some b) none c fuel).state.col = c.getD [] :=
    fun c => (grab_bad_cases fetch now (some a) none (some b) none c fuel).1
      (by simpa using hba)
  rcases col1 with _ | l
  · unfold one onePlan
    dsimp only []
    exact ⟨(hg none).1, (hg none).2.2.1, (hg none).2.1⟩
  · rcases l with _ | ⟨d, ds⟩
    · unfold one onePlan
      dsimp only []
      exact ⟨(hg (some [])).1, (hg (some [])).2.2.1, (hg (some [])).2.1⟩
    · unfold one
      dsimp only [resolveArg]
      cases drop with
      | true =>
          unfold onePlan
          dsimp only []
          exact ⟨(hg none).1, (hg none).2.2.1, (hg none).2.1⟩
      | false =>
          unfold onePlan
          rw [if_neg Bool.false_ne_true]
          dsimp only [resolveTs, Option.getD]
          rw [if_pos hba]
          exact ⟨rfl, rfl, rfl⟩

/-- C9: grab raises BAD_RANGE exactly when, after defaulting a missing
from_ts to 0 and a missing to_ts to now, to_ts <= from_ts, or when both ids
are given and to_id <= from_id (the two raises at the top of grab); in each
such failing call no window is fetched, nothing is inserted, and the
collection is unchanged. one rejects resolved numeric bounds with
from_ts >= to_ts by raising BAD_RANGE, again fetching and inserting
nothing. -/
theorem grab_bad_range_iff (fetch : Int → Int → List Trade) (now : Int)
    (fts fid tts tid : Option Int) (col : Option (List Trade)) (fuel : Nat) :
    (((grab fetch now fts fid tts tid col fuel).err = some .badRange ∨
      (grab fetch now fts fid tts tid col fuel).err = some .badRangeIds) ↔
      (tts.getD now ≤ fts.getD 0 ∨ ∃ f i, fid = some f ∧ tid = some i ∧ i ≤ f)) ∧
    ((tts.getD now ≤ fts.getD 0 ∨ ∃ f i, fid = some f ∧ tid = some i ∧ i ≤ f) →
      (grab fetch now fts fid tts tid col fuel).state.fetched = [] ∧
      (grab fetch now fts fid tts tid col fuel).state.inserted = [] ∧
      (grab fetch now fts fid tts tid col fuel).state.col = col.getD []) ∧
    (∀ (a b : Int) (col1 : Option (List Trade)) (drop : Bool), a ≥ b →
      (one fetch now col1 (some (.num a)) (some (.num b)) drop fuel).err =
        some .badRange ∧
      (one fetch now col1 (some (.num a)) (some (.num b)) drop fuel).inserted = [] ∧
      (one fetch now col1 (some (.num a)) (some (.num b)) drop fuel).fetched = []) := by
  obtain ⟨hA, hB, hC⟩ := grab_bad_cases fetch now fts fid tts tid col fuel
  refine ⟨⟨?_, ?_⟩, ?_, ?_⟩
  · intro hor
    by_cases h1 : tts.getD now ≤ fts.getD 0
    · exact Or.inl h1
    · by_cases h2 : ∃ f i, fid = some f ∧ tid = some i ∧ i ≤ f
      · exact Or.inr h2
      · rcases hC h1 h2 with he | he <;> rw [he] at hor <;>
          rcases hor with hx | hx <;> simp at hx
  · intro hcond
    by_cases h1 : tts.getD now ≤ fts.getD 0
    · exact Or.inl (hA h1).1
    · rcases hcond with hc | hc
      · exact absurd hc h1
      · exact Or.inr (hB h1 hc).1
  · intro hcond
    by_cases h1 : tts.getD now ≤ fts.getD 0
    · exact (hA h1).2
    · rcases hcond with hc | hc
      · exact absurd hc h1
      · exact (hB h1 hc).2
  · intro a b col1 drop hab
    exact one_rejects_inverted fetch now col1 a b drop fuel hab

/-- C9 witness: an inverted range (from 300 to 200) makes grab fail with
BAD_RANGE without fetching or inserting, and makes one fail likewise. -/
theorem grab_bad_range_iff_w :
    ((grab fetch8 200 (some 300) none (some 200) none none 5).err =
        some .badRange ∨
      (grab fetch8 200 (some 300) none (some 200) none none 5).err =
        some .badRangeIds) ∧
    (grab fetch8 200 (some 300) none (some 200) none none 5).state.fetched = [] ∧
    (grab fetch8 200 (some 300) none (some 200) none none 5).state.inserted = [] ∧
    (one fetch8 200 none (some (.num 300)) (some (.num 200)) false 5).err =
      some .badRange :=
  ⟨(grab_bad_range_iff fetch8 200 (some 300) none (some 200) none none 5).1.mpr
      (Or.inl (by decide)),
   ((grab_bad_range_iff fetch8 200 (some 300) none (some 200) none none 5).2.1
      (Or.inl (by decide))).1,
   ((grab_bad_range_iff fetch8 200 (some 300) none (some 200) none none 5).2.1
      (Or.inl (by decide))).2.1,
   ((grab_bad_range_iff fetch8 200 (some 300) none (some 200) none none 5).2.2
      300 200 none false (by decide)).1⟩

/-- C5: for a call to one with resolved numeric bounds a < b: when the
series is empty (absent, empty, or dropped), exactly one full grab over
(a, b) is issued; when the series is non-empty with bounds hi and the call
completes without an exception, a tail grab (a, to_ts = hi.from_ts,
to_id = hi.from_id) is issued iff a < hi.from_ts, then a head grab
(from_ts = hi.to_ts, from_id = hi.to_id, b) is issued iff b > hi.to_ts, and
no grab otherwise; both decisions read the bounds captured before any
sub-grab ran. -/
theorem one_planner_subcalls (fetch : Int → Int → List Trade) (now : Int)
    (col : Option (List Trade)) (a b : Int) (drop : Bool) (fuel : Nat)
    (hab : a < b) :
    ((col = none ∨ col = some [] ∨ drop = true) →
      (one fetch now col (some (.num a)) (some (.num b)) drop fuel).calls =
        [⟨some a, none, some b, none⟩]) ∧
    (∀ d ds, col = some (d :: ds) → drop = false →
      (one fetch now col (some (.num a)) (some (.num b)) drop fuel).err = none →
      (one fetch now col (some (.num a)) (some (.num b)) drop fuel).calls =
        (if a < (col_history_info (d :: ds)).from_ts then
          [⟨some a, none, some (col_history_info (d :: ds)).from_ts,
            some (col_history_info (d :: ds)).from_id⟩] else []) ++
        (if (col_history_info (d :: ds)).to_ts < b then
          [⟨some (col_history_info (d :: ds)).to_ts,
            some (col_history_info (d :: ds)).to_id, some b, none⟩] else [])) := by
  constructor
  · intro hcase
    rcases col with _ | l
    · unfold one onePlan
      dsimp only [Option.getD]
    · rcases l with _ | ⟨d, ds⟩
      · unfold one onePlan
        dsimp only [Option.getD]
      · have hdrop : drop = true := by
          rcases hcase with hx | hx | hx
          · cases hx
          · simp at hx
          · exact hx
        subst hdrop
        unfold one
        dsimp only [resolveArg]
        rw [if_pos rfl]
        unfold onePlan
        dsimp only [Option.getD]
  · intro d ds hcol hdrop herr
    subst hcol
    subst hdrop
    unfold one at herr ⊢
    dsimp only [resolveArg] at herr ⊢
    rw [if_neg Bool.false_ne_true] at herr ⊢
    unfold onePlan at herr ⊢
    dsimp only [resolveTs, Option.getD] at herr ⊢
    rw [if_neg (not_le.mpr hab)] at herr ⊢
    by_cases ht : a < (col_history_info (d :: ds)).from_ts
    · simp only [if_pos ht] at herr ⊢
      cases hge : (grab fetch now (some a) none
          (some (col_history_info (d :: ds)).from_ts)
          (some (col_history_info (d :: ds)).from_id) (some (d :: ds)) fuel).err with
      | none =>
          by_cases hh : (col_history_info (d :: ds)).to_ts < b
          · simp only [if_pos hh]
            rfl
          · simp only [if_neg hh]
            rfl
      | some e =>
          rw [hge] at herr
          exact absurd herr (by simp)
    · simp only [if_neg ht] at herr ⊢
      by_cases hh : (col_history_info (d :: ds)).to_ts < b
      · simp only [if_pos hh]
        rfl
      · simp only [if_neg hh]
        rfl

/-- C5 witness: on the empty collection, one full grab call; on the
collection holding rA (bounds ts 150 / id 10), a tail call then a head call
for the request (100, 200). -/
theorem one_planner_subcalls_w :
    (one fetch8 200 none (some (.num 100)) (some (.num 200)) false 10).calls =
      [⟨some 100, none, some 200, none⟩] ∧
    (one fetch8 200 (some [rA]) (some (.num 100)) (some (.num 200)) false 10).calls =
      (if (100 : Int) < (col_history_info [rA]).from_ts then
        [⟨some 100, none, some (col_history_info [rA]).from_ts,
          some (col_history_info [rA]).from_id⟩] else []) ++
      (if (col_history_info [rA]).to_ts < 200 then
        [⟨some (col_history_info [rA]).to_ts, some (col_history_info [rA]).to_id,
          some 200, none⟩] else []) :=
  ⟨(one_planner_subcalls fetch8 200 none 100 200 false 10 (by decide)).1 (Or.inl rfl),
   (one_planner_subcalls fetch8 200 (some [rA]) 100 200 false 10 (by decide)).2 rA []
     rfl rfl (by decide)⟩

/-- C6 counterexample: with from_id = 10 supplied, from_ts = 100, and the
chunk [t20] (id 20 > 10, ts 50 <= 100), the claim requires the ts-based
branch to filter to ts >= 100 (emptying the chunk) and to terminate; the
code instead skips the ts check entirely (Python elif), commits the
unfiltered chunk, and continues the loop. -/
theorem grab_lower_bound_elif_cex :
    (∃ t ∈ [t20], t.ts ≤ (100 : Int)) ∧
    (∀ t ∈ [t20], ¬ t.id ≤ (10 : Int)) ∧
    grabStepDf ⟨100, some 10, none⟩ ⟨0, 0, none, true, false, [], [], []⟩ [t20] =
      .next ⟨100, 50, some 20, true, true, [t20], [[t20]], []⟩ := by decide

/-- C6 (amended): in the lower-bound termination step (recording, no anchor
pending), if from_id is set and some row has id <= from_id, the chunk is
filtered to id > from_id, inserted when non-empty and verified, and the
loop breaks in any case; the ts-based branch governs only when from_id is
None: then, if some row has ts <= from_ts, the chunk is filtered to
ts >= from_ts, inserted when non-empty and verified, and the loop breaks. -/
theorem grab_lower_bound_step (p : GrabParams) (s : GrabState) (df : List Trade)
    (hrec : s.recording = true) (hanc : s.anchor = none) (hdf : df ≠ []) :
    (∀ f, p.from_id = some f → df.any (fun r => decide (r.id ≤ f)) = true →
      grabStepDf p s df =
        (if (df.filter (fun r => decide (f < r.id))).isEmpty then
          .brk s .startIdReached
        else if verify_history_df (df.filter (fun r => decide (f < r.id))) then
          .brk { s with col := s.col ++ df.filter (fun r => decide (f < r.id)),
                        inserted := s.inserted ++ [df.filter (fun r => decide (f < r.id))],
                        anythingRecorded := true } .startIdReached
        else .brk s .startIdReached)) ∧
    (p.from_id = none → df.any (fun r => decide (r.ts ≤ p.from_ts)) = true →
      grabStepDf p s df =
        (if (df.filter (fun r => decide (p.from_ts ≤ r.ts))).isEmpty then
          .brk s .startTsReached
        else if verify_history_df (df.filter (fun r => decide (p.from_ts ≤ r.ts))) then
          .brk { s with col := s.col ++ df.filter (fun r => decide (p.from_ts ≤ r.ts)),
                        inserted := s.inserted ++
                          [df.filter (fun r => decide (p.from_ts ≤ r.ts))],
                        anythingRecorded := true } .startTsReached
        else .brk s .startTsReached)) := by
  have hne : ¬ df.isEmpty = true := by
    simp only [List.isEmpty_iff]
    exact hdf
  have hsb : seekBlock p s df = .fall s df := by
    unfold seekBlock
    rw [if_pos hrec]
  have hab : anchorBlock s df = .fall s df := by
    unfold anchorBlock
    rw [hanc]
  constructor
  · intro f hf hany
    unfold grabStepDf
    rw [if_neg hne, hsb]
    dsimp only []
    rw [if_pos hrec, hab]
    dsimp only []
    unfold lowerBlock
    rw [hf]
    dsimp only []
    rw [if_pos hany]
    by_cases h1 : (df.filter (fun r => decide (f < r.id))).isEmpty = true
    · simp only [if_pos h1]
    · simp only [if_neg h1]
      by_cases h2 : verify_history_df (df.filter (fun r => decide (f < r.id))) = true
      · simp only [if_pos h2]
      · simp only [if_neg h2]
  · intro hnone hany
    unfold grabStepDf
    rw [if_neg hne, hsb]
    dsimp only []
    rw [if_pos hrec, hab]
    dsimp only []
    unfold lowerBlock
    rw [hnone]
    dsimp only []
    rw [if_pos hany]
    by_cases h1 : (df.filter (fun r => decide (p.from_ts ≤ r.ts))).isEmpty = true
    · simp only [if_pos h1]
    · simp only [if_neg h1]
      by_cases h2 : verify_history_df (df.filter (fun r => decide (p.from_ts ≤ r.ts))) = true
      · simp only [if_pos h2]
      · simp only [if_neg h2]

/-- C6 witness: a chunk whose only row sits at or below from_id = 10 breaks
with the start-id reason after filtering empties it, and with from_id
absent a chunk crossing from_ts is filtered to ts >= from_ts, inserted and
broken on. -/
theorem grab_lower_bound_step_w :
    grabStepDf ⟨100, some 10, none⟩ ⟨0, 0, none, true, false, [], [], []⟩ [t5] =
      (if ([t5].filter (fun r => decide ((10 : Int) < r.id))).isEmpty then
        .brk ⟨0, 0, none, true, false, [], [], []⟩ .startIdReached
      else if verify_history_df ([t5].filter (fun r => decide ((10 : Int) < r.id))) then
        .brk ⟨0, 0, none, true, false,
          [t5].filter (fun r => decide ((10 : Int) < r.id)),
          [[t5].filter (fun r => decide ((10 : Int) < r.id))], []⟩ .startIdReached
      else .brk ⟨0, 0, none, true, false, [], [], []⟩ .startIdReached) ∧
    grabStepDf ⟨100, none, none⟩ ⟨0, 0, none, true, false, [], [], []⟩ [t20] =
      (if ([t20].filter (fun r => decide ((100 : Int) ≤ r.ts))).isEmpty then
        .brk ⟨0, 0, none, true, false, [], [], []⟩ .startTsReached
      else if verify_history_df ([t20].filter (fun r => decide ((100 : Int) ≤ r.ts))) then
        .brk ⟨0, 0, none, true, false,
          [t20].filter (fun r => decide ((100 : Int) ≤ r.ts)),
          [[t20].filter (fun r => decide ((100 : Int) ≤ r.ts))], []⟩ .startTsReached
      else .brk ⟨0, 0, none, true, false, [], [], []⟩ .startTsReached) :=
  ⟨(grab_lower_bound_step ⟨100, some 10, none⟩ ⟨0, 0, none, true, false, [], [], []⟩
      [t5] rfl rfl (by decide)).1 10 rfl (by decide),
   (grab_lower_bound_step ⟨100, none, none⟩ ⟨0, 0, none, true, false, [], [], []⟩
      [t20] rfl rfl (by decide)).2 rfl (by decide)⟩

/-- C7 counterexample: the chunk [a1, a2, a2x, a4] has two rows with id 2
that differ in globalid and ts; dropna keeps all four, drop_duplicates
compares only the value columns and keeps all four, verify passes
(count 4 = 4 - 1 + 1), and the chunk is inserted with two rows sharing an
id — refuting that the chunk handed to verify and insert_docs has at most
one row per id. -/
theorem grab_commit_duplicate_id_cex :
    grabStepDf ⟨0, none, none⟩ ⟨0, 0, none, true, false, [], [], []⟩
        [a1, a2, a2x, a4] =
      .next ⟨0, 10, some 1, true, true, [a1, a2, a2x, a4], [[a1, a2, a2x, a4]], []⟩ ∧
    ¬ ([a1, a2, a2x, a4].Pairwise (fun x y => x.id ≠ y.id)) := by decide

/-- C7 (amended): in the normal-commit step, grab first discards rows with
a null field (dropna), then discards rows whose whole value-column tuple
(globalid, amount, rate, total, type) duplicates an earlier row's
(drop_duplicates), terminating without insert if the chunk becomes empty
after dropna or fails verify; the chunk handed to the verify gate and to
insert_docs therefore has pairwise-distinct value-column tuples, but may
contain several rows with the same id. -/
theorem grab_commit_dedup_by_columns (p : GrabParams) (s : GrabState)
    (df : List Trade) (hrec : s.recording = true) (hanc : s.anchor = none)
    (hfid : p.from_id = none)
    (hts : df.any (fun r => decide (r.ts ≤ p.from_ts)) = false) (hdf : df ≠ []) :
    (dropna df = [] → grabStepDf p s df = .brk s .nothingReturned) ∧
    (dropna df ≠ [] → verify_history_df (drop_duplicates (dropna df)) = false →
      grabStepDf p s df = .brk s .verifyFailed) ∧
    (dropna df ≠ [] → verify_history_df (drop_duplicates (dropna df)) = true →
      grabStepDf p s df = .next { s with
        col := s.col ++ drop_duplicates (dropna df),
        inserted := s.inserted ++ [drop_duplicates (dropna df)],
        anythingRecorded := true,
        wFrom := max ((df_history_info (drop_duplicates (dropna df))).from_ts -
          max_window_size) p.from_ts,
        wTo := (df_history_info (drop_duplicates (dropna df))).from_ts,
        anchor := some (df_history_info (drop_duplicates (dropna df))).from_id }) ∧
    (drop_duplicates (dropna df)).Pairwise (fun x y => Trade.cols x ≠ Trade.cols y) := by
  have hne : ¬ df.isEmpty = true := by
    simp only [List.isEmpty_iff]
    exact hdf
  have hsb : seekBlock p s df = .fall s df := by
    unfold seekBlock
    rw [if_pos hrec]
  have hab : anchorBlock s df = .fall s df := by
    unfold anchorBlock
    rw [hanc]
  have hreach : grabStepDf p s df = commitBlock p s df := by
    unfold grabStepDf
    rw [if_neg hne, hsb]
    dsimp only []
    rw [if_pos hrec, hab]
    dsimp only []
    unfold lowerBlock
    rw [hfid]
    dsimp only []
    rw [if_neg (by rw [hts]; exact Bool.false_ne_true)]
  refine ⟨?_, ?_, ?_, pairwise_cols_drop_duplicates (dropna df)⟩
  · intro h1
    rw [hreach]
    unfold commitBlock
    rw [if_pos (by simp [h1])]
  · intro h1 hv
    rw [hreach]
    unfold commitBlock
    dsimp only []
    rw [if_neg (by simp only [List.isEmpty_iff]; exact h1),
      if_neg (by simp only [List.isEmpty_iff]; exact drop_duplicates_ne_nil h1),
      if_neg (by rw [hv]; exact Bool.false_ne_true)]
  · intro h1 hv
    rw [hreach]
    unfold commitBlock
    dsimp only []
    rw [if_neg (by simp only [List.isEmpty_iff]; exact h1),
      if_neg (by simp only [List.isEmpty_iff]; exact drop_duplicates_ne_nil h1),
      if_pos hv]

/-- C7 witness: on the chunk [rB, rA] (rB has a null amount), dropna keeps
only rA, the dedup keeps it, verify passes, and the step commits
drop_duplicates (dropna [rB, rA]) with the expected window advance and
pairwise-distinct value columns. -/
theorem grab_commit_dedup_by_columns_w :
    grabStepDf ⟨100, none, none⟩ ⟨100, 200, none, true, false, [], [], []⟩ [rB, rA] =
      .next ⟨max ((df_history_info (drop_duplicates (dropna [rB, rA]))).from_ts -
          max_window_size) 100,
        (df_history_info (drop_duplicates (dropna [rB, rA]))).from_ts,
        some (df_history_info (drop_duplicates (dropna [rB, rA]))).from_id,
        true, true, [] ++ drop_duplicates (dropna [rB, rA]),
        [] ++ [drop_duplicates (dropna [rB, rA])], []⟩ ∧
    (drop_duplicates (dropna [rB, rA])).Pairwise
      (fun x y => Trade.cols x ≠ Trade.cols y) :=
  ⟨(grab_commit_dedup_by_columns ⟨100, none, none⟩
      ⟨100, 200, none, true, false, [], [], []⟩ [rB, rA] rfl rfl rfl (by decide)
      (by decide)).2.2.1 (by decide) (by decide),
   (grab_commit_dedup_by_columns ⟨100, none, none⟩
      ⟨100, 200, none, true, false, [], [], []⟩ [rB, rA] rfl rfl rfl (by decide)
      (by decide)).2.2.2⟩

/-- C8 counterexample: against the deterministic upstream fetch8, a first
successful run of one over (100, 200) on an absent collection stores [rA]
(rB is dropped by dropna in the normal commit); repeating the identical
request plans a head grab (200 is above the stored to_ts 150), whose
from_id termination path does not run dropna, so the second run inserts
[rB] and the series changes — the second run is not a no-op. -/
theorem one_repeat_inserts_cex :
    (one fetch8 200 none (some (.num 100)) (some (.num 200)) false 10).err = none ∧
    (one fetch8 200 none (some (.num 100)) (some (.num 200)) false 10).col =
      some [rA] ∧
    (one fetch8 200
        (one fetch8 200 none (some (.num 100)) (some (.num 200)) false 10).col
        (some (.num 100)) (some (.num 200)) false 10).err = none ∧
    (one fetch8 200
        (one fetch8 200 none (some (.num 100)) (some (.num 200)) false 10).col
        (some (.num 100)) (some (.num 200)) false 10).inserted = [[rB]] ∧
    (one fetch8 200
        (one fetch8 200 none (some (.num 100)) (some (.num 200)) false 10).col
        (some (.num 100)) (some (.num 200)) false 10).col = some [rA, rB] := by
  decide

/-- C8 (amended): repeating a range request is a no-op exactly through the
planner when the stored bounds cover it: if the collection's bounds satisfy
from_ts <= a and b <= to_ts (as they do when a prior run left the series
covering [a, b]), a call to one over (a, b) issues no grab sub-call,
fetches and inserts nothing, raises nothing, and leaves the series exactly
unchanged. -/
theorem one_idempotent_when_covered (fetch : Int → Int → List Trade) (now : Int)
    (d : Trade) (ds : List Trade) (a b : Int) (fuel : Nat) (hab : a < b)
    (hcov1 : (col_history_info (d :: ds)).from_ts ≤ a)
    (hcov2 : b ≤ (col_history_info (d :: ds)).to_ts) :
    one fetch now (some (d :: ds)) (some (.num a)) (some (.num b)) false fuel =
      { col := some (d :: ds), calls := [], inserted := [], fetched := [],
        err := none } := by
  unfold one
  dsimp only [resolveArg]
  rw [if_neg Bool.false_ne_true]
  unfold onePlan
  dsimp only [resolveTs, Option.getD]
  rw [if_neg (not_le.mpr hab), if_neg (not_lt.mpr hcov1), if_neg (not_lt.mpr hcov2)]

/-- C8 witness: the collection [rA, rB] has bounds ts 150 and 160; the
request (150, 160) is covered, and one changes nothing. -/
theorem one_idempotent_when_covered_w :
    one fetch8 200 (some [rA, rB]) (some (.num 150)) (some (.num 160)) false 10 =
      { col := some [rA, rB], calls := [], inserted := [], fetched := [],
        err := none } :=
  one_idempotent_when_covered fetch8 200 rA [rB] 150 160 10 (by decide) (by decide)
    (by decide)

/-- C10: whenever the resolved symbol list of row or of ring is empty (an
empty explicit list, the db command with no stored collections, or a regex
matching no ticker symbol), the call raises the non-empty-list exception
before invoking one on any symbol, so the archive state is returned
unchanged and the processed-pairs trace is empty. -/
theorem row_ring_empty_pairs_error {α : Type} (dbNames tickerList : List String)
    (rmatch : String → String → Bool) (oneFn : String → α → α × Option Err)
    (pairs : PairsArg) (rpairs : RingArg) (db db2 : α) (iters : Nat) :
    (resolvePairs dbNames tickerList rmatch pairs = [] →
      row dbNames tickerList rmatch oneFn pairs db = (db, [], some .emptyPairs)) ∧
    (resolveRing dbNames tickerList rmatch rpairs = [] →
      ring dbNames tickerList rmatch oneFn rpairs iters db2 =
        (db2, [], some .emptyPairs)) := by
  constructor
  · intro hres
    unfold row
    rw [hres]
    rfl
  · intro hres
    unfold ring
    rw [hres]
    rfl

/-- C10 witness: with no stored collections, the db command resolves to the
empty list and both row and ring fail with the non-empty-list exception,
leaving the state untouched. -/
theorem row_ring_empty_pairs_error_w :
    row [] ["USDT_BTC"] (fun _ _ => false) (fun _ n => (n + 1, none))
        PairsArg.db (0 : Nat) = (0, [], some .emptyPairs) ∧
    ring [] ["USDT_BTC"] (fun _ _ => false) (fun _ n => (n + 1, none))
        (RingArg.regex "X") 5 (0 : Nat) = (0, [], some .emptyPairs) :=
  ⟨(row_ring_empty_pairs_error [] ["USDT_BTC"] (fun _ _ => false)
      (fun _ n => (n + 1, none)) PairsArg.db (RingArg.regex "X") 0 0 5).1 rfl,
   (row_ring_empty_pairs_error [] ["USDT_BTC"] (fun _ _ => false)
      (fun _ n => (n + 1, none)) PairsArg.db (RingArg.regex "X") 0 0 5).2 rfl⟩

end Plnx
